import Mathlib

/-!
Verification of the per-conversation GraphRAG knowledge-base service
(`backend/app/services/graphrag_service.py`).

Python strings are modelled as lists of characters (`PyStr`); the filesystem
is modelled explicitly as a state record threaded through every operation,
with an entry per existing directory and per file.  Unreadable files are
modelled with `content = none`.  The external `graphrag` binary is abstracted
as an oracle function supplied by the environment; the index-build model
therefore stops at the decision whether a subprocess is spawned.
-/

set_option maxHeartbeats 1000000
set_option maxRecDepth 4000

namespace GraphRAG

/-- Python strings, modelled as lists of characters. -/
abbrev PyStr := List Char

/-- Whitespace test used by Python `str.strip()` and `str.split()`. -/
def isWs (c : Char) : Bool := c.isWhitespace

/-- Python `s.strip()`: drop leading and trailing whitespace. -/
def pyStrip (s : PyStr) : PyStr :=
  ((s.dropWhile isWs).reverse.dropWhile isWs).reverse

/-- Python `s.lower()`, modelled per character. -/
def pyLower (s : PyStr) : PyStr := s.map Char.toLower

/-- Helper for `pyWords`: the accumulator holds the current word reversed. -/
def wordsAux : PyStr → PyStr → List PyStr
  | [], cur => if cur.isEmpty then [] else [cur.reverse]
  | c :: rest, cur =>
      if isWs c then
        if cur.isEmpty then wordsAux rest [] else cur.reverse :: wordsAux rest []
      else wordsAux rest (c :: cur)

/-- Python `s.split()` with no arguments: split on whitespace runs, dropping
empty pieces. -/
def pyWords (s : PyStr) : List PyStr := wordsAux s []

/-- Python `"\n\n" in s`. -/
def hasDoubleNl : PyStr → Bool
  | c1 :: c2 :: rest => (c1 = '\n' && c2 = '\n') || hasDoubleNl (c2 :: rest)
  | _ => false

/-- Python `". " in s` (the condition driving break insertion indirectly:
whether the replacement changes anything). -/
def hasDotSpace : PyStr → Bool
  | c1 :: c2 :: rest => (c1 = '.' && c2 = ' ') || hasDotSpace (c2 :: rest)
  | _ => false

/-- Python `s.split("\n\n")`: split on non-overlapping occurrences of the
blank-line separator, scanning left to right. -/
def splitParas : PyStr → List PyStr
  | [] => [[]]
  | [c] => [[c]]
  | c1 :: c2 :: rest =>
      if c1 = '\n' ∧ c2 = '\n' then [] :: splitParas rest
      else
        match splitParas (c2 :: rest) with
        | [] => [[c1]]
        | p :: ps => (c1 :: p) :: ps

/-- Python `s.replace(". ", ".\n\n")`, specialised to this pattern:
non-overlapping occurrences replaced left to right. -/
def insertBreaks : PyStr → PyStr
  | [] => []
  | [c] => [c]
  | c1 :: c2 :: rest =>
      if c1 = '.' ∧ c2 = ' ' then '.' :: '\n' :: '\n' :: insertBreaks rest
      else c1 :: insertBreaks (c2 :: rest)

/-- Python `s.split(". ")`.  Used only for the spec-side reformulation of
paragraph-break insertion ("a paragraph break inserted after every
period-plus-space occurrence"). -/
def splitDotSpace : PyStr → List PyStr
  | [] => [[]]
  | [c] => [[c]]
  | c1 :: c2 :: rest =>
      if c1 = '.' ∧ c2 = ' ' then [] :: splitDotSpace rest
      else
        match splitDotSpace (c2 :: rest) with
        | [] => [[c1]]
        | p :: ps => (c1 :: p) :: ps

/-- Modelled from the spec: "paragraph breaks are synthetically inserted after
every sentence-terminating period-plus-space".  Expressed as cutting the text
at every `". "` occurrence and re-joining the pieces with a period followed by
a paragraph break.  Compared against the source-side `insertBreaks`. -/
def specInsertParagraphBreaks (s : PyStr) : PyStr :=
  List.intercalate ".\n\n".data (splitDotSpace s)

/-- Size of the Python set intersection `len(set(ws) & set(qs))`. -/
def overlapCount (ws qs : List PyStr) : Nat :=
  (ws.dedup.filter (fun w => qs.contains w)).length

/-- The canonical text extension. -/
def txtExt : PyStr := ".txt".data

/-- Last path component, as produced by `pathlib` for a name possibly
containing separators. -/
def lastComponent (s : PyStr) : PyStr :=
  (s.reverse.takeWhile (fun c => c ≠ '/')).reverse

/-- Python `Path(name).stem`: the last component with its final extension
removed; the final dot counts as an extension separator only when it is
neither the first nor the last character of the component. -/
def pathlibStem (s : PyStr) : PyStr :=
  let nm := lastComponent s
  let r := nm.reverse
  let e := r.takeWhile (fun c => c ≠ '.')
  if e.length < r.length ∧ 0 < e.length ∧ e.length + 1 < r.length then
    (r.drop (e.length + 1)).reverse
  else nm

/-- Filename normalisation in `save_document`: keep names already ending in
`.txt`, otherwise replace the extension, keeping the stem. -/
def normFilename (filename : PyStr) : PyStr :=
  if txtExt <:+ filename then filename else pathlibStem filename ++ txtExt

/-- Middle stage of content normalisation in `save_document`: after
stripping, insert paragraph breaks when the text is long (over 200
characters) and has no blank line. -/
def normContentMid (content : PyStr) : PyStr :=
  if ¬ hasDoubleNl (pyStrip content) ∧ 200 < (pyStrip content).length then
    insertBreaks (pyStrip content)
  else pyStrip content

/-- Final stage of content normalisation: guarantee a trailing newline
(Python `if not content.endswith("\n"): content += "\n"`). -/
def ensureNl (s : PyStr) : PyStr := if ['\n'] <:+ s then s else s ++ ['\n']

/-- Content normalisation in `save_document`: strip, then insert paragraph
breaks when the text is long and has no blank line, then guarantee a
trailing newline.  The sub-100-character diagnostic in the source is a print
with no effect on the written content. -/
def normContent (content : PyStr) : PyStr := ensureNl (normContentMid content)

/-- A directory path: components from the filesystem root. -/
abbrev DirPath := List PyStr

/-- A file entry: containing directory, file name and content; an unreadable
file is modelled with `content = none`. -/
structure FileEnt where
  dir : DirPath
  name : PyStr
  content : Option PyStr
deriving DecidableEq

/-- Filesystem state: the existing directories, and the files in enumeration
order. -/
structure FS where
  dirs : List DirPath
  files : List FileEnt
deriving DecidableEq

/-- Directory existence. -/
def dirExists (fs : FS) (d : DirPath) : Bool := decide (d ∈ fs.dirs)

/-- `Path.mkdir(parents=True, exist_ok=True)`: create the directory and every
ancestor; never fails when they already exist. -/
def mkdirP (fs : FS) (d : DirPath) : FS :=
  { fs with dirs := (d.inits.filter (fun p => ¬ p.isEmpty)) ++ fs.dirs }

/-- `shutil.rmtree`: remove the directory and the whole subtree beneath it. -/
def rmTree (fs : FS) (d : DirPath) : FS :=
  { dirs := fs.dirs.filter (fun p => ¬ d.isPrefixOf p),
    files := fs.files.filter (fun f => ¬ d.isPrefixOf f.dir) }

/-- `Path.glob` for a `*.ext` pattern: the files of the directory whose name
ends with the extension, in enumeration order. -/
def globExt (fs : FS) (d : DirPath) (e : PyStr) : List FileEnt :=
  fs.files.filter (fun f => decide (f.dir = d ∧ e <:+ f.name))

/-- `Path.write_text`: overwrite in place when the file exists, else append
to the directory listing. -/
def writeFile (fs : FS) (d : DirPath) (n : PyStr) (v : PyStr) : FS :=
  if fs.files.any (fun f => decide (f.dir = d ∧ f.name = n)) then
    { fs with files := fs.files.map (fun f =>
        if f.dir = d ∧ f.name = n then { f with content := some v } else f) }
  else { fs with files := fs.files ++ [⟨d, n, some v⟩] }

/-- Read a file's content (`none` when missing or unreadable). -/
def readFile (fs : FS) (d : DirPath) (n : PyStr) : Option PyStr :=
  match fs.files.find? (fun f => decide (f.dir = d ∧ f.name = n)) with
  | some f => f.content
  | none => none

/-- Workspace root of a conversation: `{base}/{conversation_id}`. -/
def convPath (base : DirPath) (id : PyStr) : DirPath := base ++ [id]

/-- Input directory `{base}/{id}/input`. -/
def inputPath (base : DirPath) (id : PyStr) : DirPath :=
  convPath base id ++ ["input".data]

/-- Output directory `{base}/{id}/output`. -/
def outputPath (base : DirPath) (id : PyStr) : DirPath :=
  convPath base id ++ ["output".data]

/-- Cache directory `{base}/{id}/cache`. -/
def cachePath (base : DirPath) (id : PyStr) : DirPath :=
  convPath base id ++ ["cache".data]

/-- `get_conversation_dir`: creates the directory before returning it. -/
def getConversationDir (base : DirPath) (fs : FS) (id : PyStr) : FS × DirPath :=
  (mkdirP fs (convPath base id), convPath base id)

/-- `get_input_dir`: creates the conversation directory, then `input`. -/
def getInputDir (base : DirPath) (fs : FS) (id : PyStr) : FS × DirPath :=
  let fs := (getConversationDir base fs id).1
  (mkdirP fs (inputPath base id), inputPath base id)

/-- `get_output_dir`: creates the conversation directory, then `output`. -/
def getOutputDir (base : DirPath) (fs : FS) (id : PyStr) : FS × DirPath :=
  let fs := (getConversationDir base fs id).1
  (mkdirP fs (outputPath base id), outputPath base id)

/-- `get_cache_dir`: creates the conversation directory, then `cache`. -/
def getCacheDir (base : DirPath) (fs : FS) (id : PyStr) : FS × DirPath :=
  let fs := (getConversationDir base fs id).1
  (mkdirP fs (cachePath base id), cachePath base id)

/-- `save_document`: resulting filesystem, directory written into, and the
normalised filename written. -/
def saveDocument (base : DirPath) (fs : FS) (id filename content : PyStr) :
    FS × DirPath × PyStr :=
  let fs := (getInputDir base fs id).1
  let fn := normFilename filename
  (writeFile fs (inputPath base id) fn (normContent content), inputPath base id, fn)

/-- Control-flow outcome of `build_index` up to the subprocess spawn.  The
first four constructors are the short-circuit exits that return `False`
without spawning any subprocess; `spawned` means control reached
`asyncio.create_subprocess_exec`. -/
inductive BuildOutcome where
  | noDocuments
  | readError
  | insufficientContent
  | noApiKey
  | spawned
deriving DecidableEq

/-- Result of the `build_index` model: filesystem after the call, the control
outcome, and whether the non-fatal low-volume warning was printed. -/
structure BuildRes where
  fs : FS
  outcome : BuildOutcome
  lowVolumeWarned : Bool
deriving DecidableEq

/-- The validation loop of `build_index`: total character count over the glob
result, aborting with `none` at the first unreadable file. -/
def totalCharsOf : List FileEnt → Option Nat
  | [] => some 0
  | f :: rest =>
      match f.content with
      | none => none
      | some c => (totalCharsOf rest).map (fun t => c.length + t)

/-- Relevant global settings: whether an API key is configured, and the
rendered `settings.yaml` text (`_create_settings_yaml` is a pure function of
the settings; its conversation argument is unused by the template). -/
structure Settings where
  apiKeySet : Bool
  yamlText : PyStr

/-- `build_index`, modelled up to the spawn decision: directory creation,
document and volume validation, API-key check, and the `settings.yaml`
write.  The subprocess itself is outside the model; reaching it is recorded
as `BuildOutcome.spawned`. -/
def buildIndex (base : DirPath) (st : Settings) (fs : FS) (id : PyStr) : BuildRes :=
  let fs := (getConversationDir base fs id).1
  let fs := (getInputDir base fs id).1
  let fs := (getOutputDir base fs id).1
  let fs := (getCacheDir base fs id).1
  let txts := globExt fs (inputPath base id) txtExt
  if txts.isEmpty then ⟨fs, .noDocuments, false⟩
  else
    match totalCharsOf txts with
    | none => ⟨fs, .readError, false⟩
    | some total =>
        if total < 50 then ⟨fs, .insufficientContent, false⟩
        else
          let warned := decide (total < 200)
          if ¬ st.apiKeySet then ⟨fs, .noApiKey, warned⟩
          else
            let fs := writeFile fs (convPath base id) "settings.yaml".data st.yamlText
            ⟨fs, .spawned, warned⟩

/-- Captured output of the external process. -/
structure ProcResult where
  returncode : Int
  stdout : PyStr
  stderr : PyStr

/-- Environment of the `query` model: whether the API key is configured and
the external `graphrag query` process as an oracle from (method, query text)
to its captured result; `none` models `FileNotFoundError` (binary missing). -/
structure QueryEnv where
  apiKeySet : Bool
  run : PyStr → PyStr → Option ProcResult

/-- Observable events of a `query` call. -/
inductive QEvent where
  | invalidMethodWarning
  | procInvoked
deriving DecidableEq

/-- Result of the `query` model. -/
structure QueryRes where
  fs : FS
  events : List QEvent
  result : Option PyStr
deriving DecidableEq

/-- The string `"local"`. -/
def localStr : PyStr := "local".data

/-- The string `"global"`. -/
def globalStr : PyStr := "global".data

/-- `query`: directory creation, artifact-directory existence check, method
validation and coercion, API-key check, then the external process; non-zero
exit or empty stripped stdout yield `none`, otherwise the stripped stdout. -/
def queryModel (base : DirPath) (env : QueryEnv) (fs : FS) (id q method : PyStr) :
    QueryRes :=
  let fs := (getConversationDir base fs id).1
  let fs := (getOutputDir base fs id).1
  if ¬ dirExists fs (outputPath base id) then ⟨fs, [], none⟩
  else
    let ev : List QEvent :=
      if method = localStr ∨ method = globalStr then [] else [.invalidMethodWarning]
    let m := if method = localStr ∨ method = globalStr then method else localStr
    if ¬ env.apiKeySet then ⟨fs, ev, none⟩
    else
      match env.run m q with
      | none => ⟨fs, ev, none⟩
      | some r =>
          let ev := ev ++ [.procInvoked]
          let out := pyStrip r.stdout
          if r.returncode ≠ 0 then ⟨fs, ev, none⟩
          else if out.isEmpty then ⟨fs, ev, none⟩
          else ⟨fs, ev, some out⟩

/-- A fallback-search candidate: (overlap score, chunk, source file name). -/
abbrev Cand := Nat × PyStr × PyStr

/-- Candidates contributed by one file in `simple_search`: split into
paragraphs on blank lines, strip, drop paragraphs under 50 characters, score
by word overlap with the query, keep positive scores with the stripped
paragraph truncated to 800 characters.  An unreadable file is skipped (the
`except` branch continues with the next file). -/
def fileCandidates (queryWords : List PyStr) (f : FileEnt) : List Cand :=
  match f.content with
  | none => []
  | some content =>
      (splitParas content).filterMap (fun para =>
        let p := pyStrip para
        if p.length < 50 then none
        else
          let ov := overlapCount (pyWords (pyLower p)) queryWords
          if 1 ≤ ov then some (ov, p.take 800, f.name) else none)

/-- The candidate list of `simple_search` over the glob result, in encounter
order: file order, then paragraph order within a file. -/
def relevantList (queryWords : List PyStr) (txts : List FileEnt) : List Cand :=
  txts.flatMap (fileCandidates queryWords)

/-- Descending-score order on candidates; Python's stable `list.sort` with
`key=score, reverse=True` is the stable insertion sort under this order. -/
def scoreGE (a b : Cand) : Prop := b.1 ≤ a.1

instance : DecidableRel scoreGE := fun a b => inferInstanceAs (Decidable (b.1 ≤ a.1))

instance : IsTotal Cand scoreGE :=
  ⟨fun a b => (Nat.le_total b.1 a.1).elim Or.inl Or.inr⟩

instance : IsTrans Cand scoreGE :=
  ⟨fun _ _ _ h1 h2 => Nat.le_trans h2 h1⟩

/-- Label of a selected chunk: `"[From: {filename}]\n{chunk}"`. -/
def renderChunk (c : Cand) : PyStr := "[From: ".data ++ c.2.2 ++ "]\n".data ++ c.2.1

/-- Separator joining selected chunks. -/
def chunkSep : PyStr := "\n\n---\n\n".data

/-- `simple_search`: keyword-overlap fallback retrieval; pure given the
filesystem, no subprocess. -/
def simpleSearch (base : DirPath) (fs : FS) (id q : PyStr) (maxResults : Nat) :
    FS × Option PyStr :=
  let fs := (getInputDir base fs id).1
  let txts := globExt fs (inputPath base id) txtExt
  if txts.isEmpty then (fs, none)
  else
    let queryWords := pyWords (pyLower q)
    let relevant := relevantList queryWords txts
    if relevant.isEmpty then (fs, none)
    else
      let sorted := List.insertionSort scoreGE relevant
      (fs, some (List.intercalate chunkSep ((sorted.take maxResults).map renderChunk)))

/-- `has_index`: the output directory exists (it was just created by the
getter) and holds at least one parquet artifact. -/
def hasIndex (base : DirPath) (fs : FS) (id : PyStr) : FS × Bool :=
  let fs := (getOutputDir base fs id).1
  (fs, dirExists fs (outputPath base id) &&
    decide (0 < (globExt fs (outputPath base id) ".parquet".data).length))

/-- `has_documents`: at least one text file in the input directory. -/
def hasDocuments (base : DirPath) (fs : FS) (id : PyStr) : FS × Bool :=
  let fs := (getInputDir base fs id).1
  (fs, decide (0 < (globExt fs (inputPath base id) txtExt).length))

/-- The record returned by `get_index_stats`. -/
structure StatsRec where
  hasIndexFlag : Bool
  hasDocumentsFlag : Bool
  documentCount : Nat
  totalCharacters : Nat
  artifactCount : Nat
deriving DecidableEq

/-- Character total of the stats loop: every text file counts toward
`document_count`; an unreadable file contributes no characters (`except:
pass` continues the loop). -/
def statsChars (l : List FileEnt) : Nat :=
  (l.map (fun f => (f.content.getD []).length)).sum

/-- `get_index_stats`: aggregates the flags and counts over the live
filesystem. -/
def getIndexStats (base : DirPath) (fs : FS) (id : PyStr) : FS × StatsRec :=
  let (fs, hi) := hasIndex base fs id
  let (fs, hd) := hasDocuments base fs id
  let fs := (getInputDir base fs id).1
  let txts := globExt fs (inputPath base id) txtExt
  let fs := (getOutputDir base fs id).1
  let arts :=
    if dirExists fs (outputPath base id) then
      (globExt fs (outputPath base id) ".parquet".data).length
    else 0
  (fs, ⟨hi, hd, txts.length, statsChars txts, arts⟩)

/-- `delete_conversation_data`: obtain the conversation directory (creating
it), and when it exists remove the subtree and return `true`; the `false`
branch is reached only when the directory is absent after the getter. -/
def deleteConversationData (base : DirPath) (fs : FS) (id : PyStr) : FS × Bool :=
  let fs := (getConversationDir base fs id).1
  if dirExists fs (convPath base id) then (rmTree fs (convPath base id), true)
  else (fs, false)

/-! ## Basic filesystem lemmas -/

/-- Creating directories never changes the files. -/
theorem files_mkdirP (fs : FS) (d : DirPath) : (mkdirP fs d).files = fs.files := rfl

/-- Globbing is unaffected by directory creation. -/
theorem globExt_mkdirP (fs : FS) (p d : DirPath) (e : PyStr) :
    globExt (mkdirP fs p) d e = globExt fs d e := rfl

/-- A nonempty directory path exists right after `mkdirP` created it. -/
theorem dirExists_mkdirP_self (fs : FS) (d : DirPath) (h : d ≠ []) :
    dirExists (mkdirP fs d) d = true := by
  simp only [dirExists, mkdirP, decide_eq_true_iff, List.mem_append, List.mem_filter]
  exact Or.inl ⟨(List.mem_inits d d).mpr (List.prefix_refl d), by simpa [List.isEmpty_iff]⟩

/-- Conversation workspace paths are nonempty. -/
theorem convPath_ne_nil (base : DirPath) (id : PyStr) : convPath base id ≠ [] := by
  simp [convPath]

/-- Input directory paths are nonempty. -/
theorem inputPath_ne_nil (base : DirPath) (id : PyStr) : inputPath base id ≠ [] := by
  simp [inputPath]

/-- Output directory paths are nonempty. -/
theorem outputPath_ne_nil (base : DirPath) (id : PyStr) : outputPath base id ≠ [] := by
  simp [outputPath]

/-! ## Claims about build_index -/

/-- C3: for every conversation id whose input directory contains zero text
files, `build_index` returns `False` at the no-documents exit and spawns no
subprocess. -/
theorem buildIndex_empty_input_no_spawn (base : DirPath) (st : Settings) (fs : FS)
    (id : PyStr) (h : globExt fs (inputPath base id) txtExt = []) :
    (buildIndex base st fs id).outcome = BuildOutcome.noDocuments ∧
    (buildIndex base st fs id).outcome ≠ BuildOutcome.spawned := by
  have hout : (buildIndex base st fs id).outcome = BuildOutcome.noDocuments := by
    simp [buildIndex, getConversationDir, getInputDir, getOutputDir, getCacheDir,
      globExt_mkdirP, h]
  exact ⟨hout, by simp [hout]⟩

/-- C3 witness: a concrete empty filesystem takes the no-documents exit. -/
theorem buildIndex_empty_input_no_spawn_witness :
    (buildIndex ["data".data] ⟨true, []⟩ ⟨[], []⟩ "b".data).outcome =
      BuildOutcome.noDocuments :=
  (buildIndex_empty_input_no_spawn ["data".data] ⟨true, []⟩ ⟨[], []⟩ "b".data
    (by decide)).1

/-- C4: with at least one input file and every input file readable, a total
character count below 50 makes `build_index` return `False` at the
insufficient-content exit without spawning and without the low-volume
warning; a total in `[50, 200)` emits the low-volume warning and proceeds
past the volume validation (reaching the API-key check or the spawn). -/
theorem buildIndex_volume_thresholds (base : DirPath) (st : Settings) (fs : FS)
    (id : PyStr) (total : Nat)
    (hne : globExt fs (inputPath base id) txtExt ≠ [])
    (hread : totalCharsOf (globExt fs (inputPath base id) txtExt) = some total) :
    (total < 50 →
      (buildIndex base st fs id).outcome = BuildOutcome.insufficientContent ∧
      (buildIndex base st fs id).outcome ≠ BuildOutcome.spawned ∧
      (buildIndex base st fs id).lowVolumeWarned = false) ∧
    (50 ≤ total → total < 200 →
      (buildIndex base st fs id).lowVolumeWarned = true ∧
      ((buildIndex base st fs id).outcome = BuildOutcome.noApiKey ∨
        (buildIndex base st fs id).outcome = BuildOutcome.spawned)) := by
  have hie : (globExt fs (inputPath base id) txtExt).isEmpty = false :=
    List.isEmpty_eq_false.mpr hne
  constructor
  · intro hlt
    refine ⟨?_, ?_, ?_⟩ <;>
      simp [buildIndex, getConversationDir, getInputDir, getOutputDir, getCacheDir,
        globExt_mkdirP, hie, hread, hlt]
  · intro hge hlt200
    have h50 : ¬ total < 50 := by omega
    constructor
    · by_cases hk : st.apiKeySet <;>
        simp [buildIndex, getConversationDir, getInputDir, getOutputDir, getCacheDir,
          globExt_mkdirP, hie, hread, h50, hk, hlt200]
    · by_cases hk : st.apiKeySet
      · refine Or.inr ?_
        simp [buildIndex, getConversationDir, getInputDir, getOutputDir, getCacheDir,
          globExt_mkdirP, hie, hread, h50, hk]
      · refine Or.inl ?_
        simp [buildIndex, getConversationDir, getInputDir, getOutputDir, getCacheDir,
          globExt_mkdirP, hie, hread, h50, hk]

/-- C4 witness: a 40-character corpus fails at the volume floor; a
60-character corpus emits the low-volume warning and proceeds. -/
theorem buildIndex_volume_thresholds_witness :
    ((buildIndex ["data".data] ⟨true, []⟩
        ⟨[], [⟨inputPath ["data".data] "b".data, "a.txt".data,
          some (List.replicate 40 'x')⟩]⟩ "b".data).outcome =
      BuildOutcome.insufficientContent) ∧
    ((buildIndex ["data".data] ⟨true, []⟩
        ⟨[], [⟨inputPath ["data".data] "b".data, "a.txt".data,
          some (List.replicate 60 'x')⟩]⟩ "b".data).lowVolumeWarned = true) := by
  refine ⟨((buildIndex_volume_thresholds ["data".data] ⟨true, []⟩
      ⟨[], [⟨inputPath ["data".data] "b".data, "a.txt".data,
        some (List.replicate 40 'x')⟩]⟩ "b".data 40 (by decide) (by decide)).1
      (by decide)).1, ?_⟩
  exact (((buildIndex_volume_thresholds ["data".data] ⟨true, []⟩
      ⟨[], [⟨inputPath ["data".data] "b".data, "a.txt".data,
        some (List.replicate 60 'x')⟩]⟩ "b".data 60 (by decide) (by decide)).2
      (by decide) (by decide)).1)

/-! ## Claims about the status reporter -/

/-- C9: the record returned by `get_index_stats` is internally consistent:
`has_documents` holds exactly when `document_count` is positive, and
`has_index` holds exactly when `artifact_count` is positive. -/
theorem getIndexStats_consistent (base : DirPath) (fs : FS) (id : PyStr) :
    ((getIndexStats base fs id).2.hasDocumentsFlag = true ↔
      0 < (getIndexStats base fs id).2.documentCount) ∧
    ((getIndexStats base fs id).2.hasIndexFlag = true ↔
      0 < (getIndexStats base fs id).2.artifactCount) := by
  have hout : ∀ g : FS, dirExists (mkdirP g (outputPath base id)) (outputPath base id) = true :=
    fun g => dirExists_mkdirP_self g (outputPath base id) (outputPath_ne_nil base id)
  constructor
  · simp [getIndexStats, hasIndex, hasDocuments, getInputDir, getOutputDir,
      getConversationDir, globExt_mkdirP]
  · simp [getIndexStats, hasIndex, hasDocuments, getInputDir, getOutputDir,
      getConversationDir, globExt_mkdirP, hout]

/-- C9 witness: on a concrete filesystem holding one text document and no
artifacts, the consistency equivalences instantiate as expected. -/
theorem getIndexStats_consistent_witness :
    (getIndexStats ["data".data]
      ⟨[], [⟨inputPath ["data".data] "b".data, "a.txt".data, some "hi".data⟩]⟩
      "b".data).2.hasDocumentsFlag = true :=
  ((getIndexStats_consistent ["data".data]
      ⟨[], [⟨inputPath ["data".data] "b".data, "a.txt".data, some "hi".data⟩]⟩
      "b".data).1).mpr (by decide)

/-! ## Claims about query and deletion -/

/-- C1 evidence: the existence check on the output directory in `query` is
dead code, because `get_output_dir` creates that directory just before the
check.  On a filesystem where the tenant's output directory does not exist,
`query` does not return `none` at that check: with a configured key and a
working binary it invokes the subprocess and returns its answer. -/
theorem query_spawns_despite_missing_output_dir :
    dirExists (⟨[], []⟩ : FS) (outputPath ["data".data] "b".data) = false ∧
    (queryModel ["data".data] ⟨true, fun _ _ => some ⟨0, " The answer. ".data, []⟩⟩
      ⟨[], []⟩ "b".data "q".data localStr).result = some "The answer.".data ∧
    QEvent.procInvoked ∈
      (queryModel ["data".data] ⟨true, fun _ _ => some ⟨0, " The answer. ".data, []⟩⟩
        ⟨[], []⟩ "b".data "q".data localStr).events := by
  decide

/-- C2 evidence: `delete_conversation_data` removes the subtree and returns
`true` on the first call, but the second call also returns `true`, because
`get_conversation_dir` recreates the (empty) workspace before the existence
check; the `false` branch is unreachable. -/
theorem delete_twice_returns_true_twice :
    (deleteConversationData ["data".data]
      ⟨[["data".data], ["data".data, "b".data], ["data".data, "b".data, "input".data]],
        [⟨["data".data, "b".data, "input".data], "a.txt".data, some "hello".data⟩]⟩
      "b".data).2 = true ∧
    (deleteConversationData ["data".data]
      ⟨[["data".data], ["data".data, "b".data], ["data".data, "b".data, "input".data]],
        [⟨["data".data, "b".data, "input".data], "a.txt".data, some "hello".data⟩]⟩
      "b".data).1.files = [] ∧
    dirExists (deleteConversationData ["data".data]
      ⟨[["data".data], ["data".data, "b".data], ["data".data, "b".data, "input".data]],
        [⟨["data".data, "b".data, "input".data], "a.txt".data, some "hello".data⟩]⟩
      "b".data).1 (convPath ["data".data] "b".data) = false ∧
    (deleteConversationData ["data".data]
      (deleteConversationData ["data".data]
        ⟨[["data".data], ["data".data, "b".data], ["data".data, "b".data, "input".data]],
          [⟨["data".data, "b".data, "input".data], "a.txt".data, some "hello".data⟩]⟩
        "b".data).1 "b".data).2 = true := by
  decide

/-- C8: a query method outside {local, global} is never rejected: the call
emits the invalid-method warning and otherwise behaves exactly as the same
call with method `local` — same filesystem effect and same result. -/
theorem queryModel_invalid_method (base : DirPath) (env : QueryEnv) (fs : FS)
    (id q m : PyStr) (h1 : m ≠ localStr) (h2 : m ≠ globalStr) :
    (queryModel base env fs id q m).result =
      (queryModel base env fs id q localStr).result ∧
    (queryModel base env fs id q m).fs = (queryModel base env fs id q localStr).fs ∧
    (queryModel base env fs id q m).events =
      QEvent.invalidMethodWarning :: (queryModel base env fs id q localStr).events := by
  have hex : ∀ g : FS, dirExists (mkdirP g (outputPath base id))
      (outputPath base id) = true :=
    fun g => dirExists_mkdirP_self g (outputPath base id) (outputPath_ne_nil base id)
  by_cases hk : env.apiKeySet
  · cases hrun : env.run localStr q with
    | none =>
        refine ⟨?_, ?_, ?_⟩ <;>
          simp [queryModel, getConversationDir, getOutputDir, hex, h1, h2, hk, hrun]
    | some r =>
        by_cases hrc : r.returncode ≠ 0
        · refine ⟨?_, ?_, ?_⟩ <;>
            simp [queryModel, getConversationDir, getOutputDir, hex, h1, h2, hk, hrun, hrc]
        · by_cases hout : (pyStrip r.stdout).isEmpty
          · refine ⟨?_, ?_, ?_⟩ <;>
              simp [queryModel, getConversationDir, getOutputDir, hex, h1, h2, hk, hrun,
                hrc, hout]
          · refine ⟨?_, ?_, ?_⟩ <;>
              simp [queryModel, getConversationDir, getOutputDir, hex, h1, h2, hk, hrun,
                hrc, hout]
  · refine ⟨?_, ?_, ?_⟩ <;>
      simp [queryModel, getConversationDir, getOutputDir, hex, h1, h2, hk]

/-- C8 witness: the invalid method `drift` behaves as `local` on a concrete
call, with the warning recorded. -/
theorem queryModel_invalid_method_witness :
    (queryModel ["data".data] ⟨true, fun _ _ => some ⟨0, "ok!".data, []⟩⟩ ⟨[], []⟩
      "b".data "q".data "drift".data).result =
      (queryModel ["data".data] ⟨true, fun _ _ => some ⟨0, "ok!".data, []⟩⟩ ⟨[], []⟩
        "b".data "q".data localStr).result ∧
    (queryModel ["data".data] ⟨true, fun _ _ => some ⟨0, "ok!".data, []⟩⟩ ⟨[], []⟩
      "b".data "q".data "drift".data).events =
      QEvent.invalidMethodWarning ::
        (queryModel ["data".data] ⟨true, fun _ _ => some ⟨0, "ok!".data, []⟩⟩ ⟨[], []⟩
          "b".data "q".data localStr).events := by
  refine ⟨(queryModel_invalid_method ["data".data]
      ⟨true, fun _ _ => some ⟨0, "ok!".data, []⟩⟩ ⟨[], []⟩ "b".data "q".data
      "drift".data (by decide) (by decide)).1,
    (queryModel_invalid_method ["data".data]
      ⟨true, fun _ _ => some ⟨0, "ok!".data, []⟩⟩ ⟨[], []⟩ "b".data "q".data
      "drift".data (by decide) (by decide)).2.2⟩

/-! ## Claims about filename normalisation -/

/-- Auxiliary: `takeWhile` runs through a block where the predicate holds and
stops at the first failing element. -/
theorem takeWhile_append_stop (p : Char → Bool) (l₁ l₂ : List Char) (x : Char)
    (h1 : ∀ a ∈ l₁, p a = true) (h2 : p x = false) :
    (l₁ ++ x :: l₂).takeWhile p = l₁ := by
  induction l₁ with
  | nil => simp [List.takeWhile_cons, h2]
  | cons a l ih =>
      have ha : p a = true := h1 a (List.mem_cons_self a l)
      simp [List.takeWhile_cons, ha, ih (fun b hb => h1 b (List.mem_cons_of_mem a hb))]

/-- C7: for every filename of the shape `stem.ext` (nonempty stem, nonempty
extension without dots or separators, stem without separators) that does not
already end in `.txt`, `save_document` computes the target name by replacing
the extension with `.txt` — the stem is preserved and nothing is appended to
the full name. -/
theorem normFilename_replaces_extension (stem ext : PyStr) (hs : stem ≠ [])
    (hdot : '.' ∉ ext) (hsl1 : '/' ∉ stem) (hsl2 : '/' ∉ ext) (hne : ext ≠ [])
    (htxt : ¬ txtExt <:+ (stem ++ '.' :: ext)) :
    normFilename (stem ++ '.' :: ext) = stem ++ txtExt := by
  have hrev : (stem ++ '.' :: ext).reverse = ext.reverse ++ '.' :: stem.reverse := by
    simp
  have hlast : lastComponent (stem ++ '.' :: ext) = stem ++ '.' :: ext := by
    unfold lastComponent
    rw [List.takeWhile_eq_self_iff.mpr ?_, List.reverse_reverse]
    intro c hc
    rw [List.mem_reverse] at hc
    rcases List.mem_append.mp hc with h | h
    · simp only [ne_eq, decide_eq_true_eq]
      intro he
      exact hsl1 (he ▸ h)
    · rcases List.mem_cons.mp h with h | h
      · simp [h]
      · simp only [ne_eq, decide_eq_true_eq]
        intro he
        exact hsl2 (he ▸ h)
  have htake : (ext.reverse ++ '.' :: stem.reverse).takeWhile (fun c => c ≠ '.') =
      ext.reverse := by
    refine takeWhile_append_stop _ _ _ _ (fun a ha => ?_) (by simp)
    rw [List.mem_reverse] at ha
    simp only [ne_eq, decide_eq_true_eq]
    intro he
    exact hdot (he ▸ ha)
  have hdrop : (ext.reverse ++ '.' :: stem.reverse).drop (ext.reverse.length + 1) =
      stem.reverse := by
    have : ext.reverse ++ '.' :: stem.reverse = (ext.reverse ++ ['.']) ++ stem.reverse := by
      simp
    rw [this]
    exact List.drop_left' (by simp)
  have hcond : ext.reverse.length < (ext.reverse ++ '.' :: stem.reverse).length ∧
      0 < ext.reverse.length ∧
      ext.reverse.length + 1 < (ext.reverse ++ '.' :: stem.reverse).length := by
    have h1 : 0 < ext.length := List.length_pos.mpr hne
    have h2 : 0 < stem.length := List.length_pos.mpr hs
    refine ⟨?_, by simpa using h1, ?_⟩ <;>
      · simp only [List.length_append, List.length_reverse, List.length_cons]
        omega
  have hstem : pathlibStem (stem ++ '.' :: ext) = stem := by
    unfold pathlibStem
    rw [hlast]
    simp only [hrev, htake]
    rw [if_pos hcond, hdrop, List.reverse_reverse]
  unfold normFilename
  rw [if_neg (by simpa using htxt), hstem]

/-- C7 witness: `notes.docx` is saved as `notes.txt`. -/
theorem normFilename_replaces_extension_witness :
    normFilename ("notes".data ++ '.' :: "docx".data) = "notes".data ++ txtExt :=
  normFilename_replaces_extension "notes".data "docx".data (by decide) (by decide)
    (by decide) (by decide) (by decide) (by decide)

/-! ## String-normalisation lemmas -/

/-- A one-character prefix is exactly a condition on the first character. -/
theorem singleton_prefix_iff (c : Char) (l : PyStr) : [c] <+: l ↔ l.head? = some c := by
  cases l with
  | nil => simp
  | cons a t =>
      rw [List.cons_prefix_cons]
      simp [eq_comm]

/-- A one-character suffix is exactly a condition on the last character. -/
theorem singleton_suffix_iff (c : Char) (s : PyStr) :
    [c] <:+ s ↔ s.getLast? = some c := by
  rw [← List.head?_reverse, ← singleton_prefix_iff]
  constructor
  · intro h
    have := (@List.reverse_prefix Char [c] s).mpr h
    simpa using this
  · intro h
    have : List.reverse [c] <+: List.reverse s := by simpa using h
    exact (@List.reverse_prefix Char [c] s).mp this

/-- The head surviving `dropWhile` fails the predicate. -/
theorem head?_dropWhile_false (p : Char → Bool) (l : PyStr) (c : Char)
    (h : (l.dropWhile p).head? = some c) : p c = false := by
  have := List.head?_dropWhile_not p l
  rw [h] at this
  exact this

/-- The first character of a stripped string is not whitespace. -/
theorem pyStrip_head_not_ws (s : PyStr) (c : Char)
    (h : (pyStrip s).head? = some c) : isWs c = false := by
  have hpre : pyStrip s <+: s.dropWhile isWs := by
    unfold pyStrip
    have := @List.reverse_prefix Char
      (((s.dropWhile isWs).reverse).dropWhile isWs)
      ((s.dropWhile isWs).reverse)
    rw [List.reverse_reverse] at this
    exact this.mpr (List.dropWhile_suffix isWs)
  obtain ⟨t, ht⟩ := hpre
  have hh : (s.dropWhile isWs).head? = some c := by
    rw [← ht, List.head?_append, h]
    rfl
  exact head?_dropWhile_false isWs s c hh

/-- The last character of a stripped string is not whitespace. -/
theorem pyStrip_last_not_ws (s : PyStr) (c : Char)
    (h : (pyStrip s).getLast? = some c) : isWs c = false := by
  unfold pyStrip at h
  rw [List.getLast?_reverse] at h
  exact head?_dropWhile_false isWs (s.dropWhile isWs).reverse c h

/-- A string with non-whitespace first and last characters is its own strip. -/
theorem pyStrip_eq_self (s : PyStr)
    (h1 : ∀ c, s.head? = some c → isWs c = false)
    (h2 : ∀ c, s.getLast? = some c → isWs c = false) :
    pyStrip s = s := by
  have hd : ∀ (l : PyStr), (∀ c, l.head? = some c → isWs c = false) →
      l.dropWhile isWs = l := by
    intro l hl
    cases l with
    | nil => rfl
    | cons a t =>
        rw [List.dropWhile_cons, if_neg]
        simp [hl a rfl]
  unfold pyStrip
  rw [hd s h1, hd s.reverse (fun c hc => h2 c (by simpa using hc)),
    List.reverse_reverse]

/-- Stripping is idempotent. -/
theorem pyStrip_idem (s : PyStr) : pyStrip (pyStrip s) = pyStrip s :=
  pyStrip_eq_self (pyStrip s) (pyStrip_head_not_ws s) (pyStrip_last_not_ws s)

/-- Appending a newline does not change the strip. -/
theorem pyStrip_append_nl (s : PyStr) : pyStrip (s ++ ['\n']) = pyStrip s := by
  unfold pyStrip
  rw [List.dropWhile_append]
  by_cases hd : (s.dropWhile isWs).isEmpty
  · rw [if_pos hd]
    have : List.dropWhile isWs ['\n'] = [] := by decide
    rw [this]
    rw [List.isEmpty_iff] at hd
    rw [hd]
  · rw [if_neg hd]
    rw [List.reverse_append]
    have : List.reverse ['\n'] = ['\n'] := rfl
    rw [this]
    have : ('\n' :: (s.dropWhile isWs).reverse).dropWhile isWs =
        (s.dropWhile isWs).reverse.dropWhile isWs := by
      rw [List.dropWhile_cons, if_pos (by decide)]
    rw [List.singleton_append, this]

/-- insertBreaks of a nonempty string is nonempty. -/
theorem insertBreaks_ne_nil (t : PyStr) (h : t ≠ []) : insertBreaks t ≠ [] := by
  induction t using insertBreaks.induct with
  | case1 => exact absurd rfl h
  | case2 c => simp [insertBreaks]
  | case3 c1 c2 rest hc ih =>
      obtain ⟨rfl, rfl⟩ := hc
      simp [insertBreaks]
  | case4 c1 c2 rest hc ih =>
      rw [insertBreaks, if_neg hc]
      simp

/-- Break insertion does not change the first character. -/
theorem head?_insertBreaks (t : PyStr) : (insertBreaks t).head? = t.head? := by
  induction t using insertBreaks.induct with
  | case1 => rfl
  | case2 c => rfl
  | case3 c1 c2 rest hc ih =>
      obtain ⟨rfl, rfl⟩ := hc
      simp [insertBreaks]
  | case4 c1 c2 rest hc ih =>
      rw [insertBreaks, if_neg hc]
      rfl

/-- Break insertion does not change the last character when the string does
not end in a space. -/
theorem getLast?_insertBreaks (t : PyStr) (h : t.getLast? ≠ some ' ') :
    (insertBreaks t).getLast? = t.getLast? := by
  induction t using insertBreaks.induct with
  | case1 => rfl
  | case2 c => rfl
  | case3 c1 c2 rest hc ih =>
      obtain ⟨rfl, rfl⟩ := hc
      cases hr : rest with
      | nil =>
          rw [hr] at h
          simp at h
      | cons r rs =>
          rw [← hr]
          have hrest : rest ≠ [] := by simp [hr]
          have hlast : ('.' :: ' ' :: rest).getLast? = rest.getLast? := by
            rw [hr]
            simp
          rw [hlast] at h
          have hne : insertBreaks rest ≠ [] := insertBreaks_ne_nil rest hrest
          have : insertBreaks ('.' :: ' ' :: rest) =
              ['.', '\n', '\n'] ++ insertBreaks rest := by
            rw [insertBreaks, if_pos ⟨rfl, rfl⟩]
            rfl
          rw [this, List.getLast?_append, hlast, ih h]
          obtain ⟨x, hx⟩ :=
            Option.isSome_iff_exists.mp (List.getLast?_isSome.mpr hrest)
          rw [hx]
          rfl
  | case4 c1 c2 rest hc ih =>
      have hlast : (c1 :: c2 :: rest).getLast? = (c2 :: rest).getLast? := by simp
      rw [hlast] at h
      have : insertBreaks (c1 :: c2 :: rest) = [c1] ++ insertBreaks (c2 :: rest) := by
        rw [insertBreaks, if_neg hc]
        rfl
      rw [this, List.getLast?_append, hlast, ih h]
      obtain ⟨x, hx⟩ := Option.isSome_iff_exists.mp
        (List.getLast?_isSome.mpr (List.cons_ne_nil c2 rest))
      rw [hx]
      rfl

/-- A string containing a blank line still contains one after a character is
prepended. -/
theorem hasDoubleNl_cons (c : Char) (t : PyStr) (h : hasDoubleNl t = true) :
    hasDoubleNl (c :: t) = true := by
  cases t with
  | nil => simp [hasDoubleNl] at h
  | cons x xs =>
      cases xs with
      | nil => simp [hasDoubleNl] at h
      | cons y ys =>
          rw [hasDoubleNl]
          rw [h]
          simp

/-- When the text contains a period-space, break insertion produces a blank
line. -/
theorem hasDoubleNl_insertBreaks (t : PyStr) (h : hasDotSpace t = true) :
    hasDoubleNl (insertBreaks t) = true := by
  induction t using insertBreaks.induct with
  | case1 => simp [hasDotSpace] at h
  | case2 c => simp [hasDotSpace] at h
  | case3 c1 c2 rest hc ih =>
      obtain ⟨rfl, rfl⟩ := hc
      rw [insertBreaks, if_pos ⟨rfl, rfl⟩]
      cases hr : insertBreaks rest with
      | nil => rfl
      | cons x xs => rfl
  | case4 c1 c2 rest hc ih =>
      rw [insertBreaks, if_neg hc]
      rw [hasDotSpace] at h
      simp only [Bool.or_eq_true, Bool.and_eq_true, decide_eq_true_eq] at h
      rcases h with h' | h'
      · exact absurd h' hc
      · exact hasDoubleNl_cons c1 (insertBreaks (c2 :: rest)) (ih h')

/-- Without a period-space, break insertion changes nothing. -/
theorem insertBreaks_eq_self (t : PyStr) (h : hasDotSpace t = false) :
    insertBreaks t = t := by
  induction t using insertBreaks.induct with
  | case1 => rfl
  | case2 c => rfl
  | case3 c1 c2 rest hc ih =>
      obtain ⟨rfl, rfl⟩ := hc
      rw [hasDotSpace] at h
      simp at h
  | case4 c1 c2 rest hc ih =>
      rw [insertBreaks, if_neg hc]
      cases hh : hasDotSpace (c2 :: rest) with
      | false => rw [ih hh]
      | true =>
          rw [hasDotSpace, hh] at h
          simp at h

/-- Splitting on period-space never yields an empty piece list. -/
theorem splitDotSpace_ne_nil (t : PyStr) : splitDotSpace t ≠ [] := by
  induction t using splitDotSpace.induct with
  | case1 => simp [splitDotSpace]
  | case2 c => simp [splitDotSpace]
  | case3 c1 c2 rest hc ih =>
      obtain ⟨rfl, rfl⟩ := hc
      rw [splitDotSpace, if_pos ⟨rfl, rfl⟩]
      simp
  | case4 c1 c2 rest hc hnil ih => exact absurd hnil ih
  | case5 c1 c2 rest hc p ps hps ih =>
      rw [splitDotSpace, if_neg hc, hps]
      simp

/-- The source's `replace(". ", ".\n\n")` agrees with the spec-side
reformulation by splitting on period-space and rejoining with a period and a
blank line. -/
theorem insertBreaks_eq_spec (s : PyStr) :
    insertBreaks s = specInsertParagraphBreaks s := by
  unfold specInsertParagraphBreaks
  induction s using splitDotSpace.induct with
  | case1 => rfl
  | case2 c => rfl
  | case3 c1 c2 rest hc ih =>
      obtain ⟨rfl, rfl⟩ := hc
      rw [splitDotSpace, if_pos ⟨rfl, rfl⟩, insertBreaks, if_pos ⟨rfl, rfl⟩]
      cases hps : splitDotSpace rest with
      | nil => exact absurd hps (splitDotSpace_ne_nil rest)
      | cons p ps =>
          rw [hps] at ih
          rw [ih]
          simp only [List.intercalate, List.intersperse_cons₂, List.flatten_cons,
            List.nil_append]
          rfl
  | case4 c1 c2 rest hc hnil ih => exact absurd hnil (splitDotSpace_ne_nil (c2 :: rest))
  | case5 c1 c2 rest hc p ps hps ih =>
      rw [splitDotSpace, if_neg hc, hps, insertBreaks, if_neg hc]
      rw [hps] at ih
      rw [ih]
      cases ps with
      | nil => simp [List.intercalate]
      | cons q qs =>
          rw [List.intercalate, List.intercalate, List.intersperse_cons₂,
            List.intersperse_cons₂, List.flatten_cons, List.flatten_cons]
          simp

/-- The middle normalisation stage is already stripped. -/
theorem pyStrip_normContentMid (c : PyStr) :
    pyStrip (normContentMid c) = normContentMid c := by
  unfold normContentMid
  by_cases hcond : ¬ hasDoubleNl (pyStrip c) ∧ 200 < (pyStrip c).length
  · rw [if_pos hcond]
    refine pyStrip_eq_self _ (fun x hx => ?_) (fun x hx => ?_)
    · rw [head?_insertBreaks] at hx
      exact pyStrip_head_not_ws c x hx
    · have hlast : (pyStrip c).getLast? ≠ some ' ' := by
        intro hsp
        have := pyStrip_last_not_ws c ' ' hsp
        simp [isWs] at this
      rw [getLast?_insertBreaks (pyStrip c) hlast] at hx
      exact pyStrip_last_not_ws c x hx
  · rw [if_neg hcond]
    exact pyStrip_idem c

/-- Guaranteeing a trailing newline does not change the strip. -/
theorem pyStrip_ensureNl (s : PyStr) : pyStrip (ensureNl s) = pyStrip s := by
  unfold ensureNl
  by_cases h : ['\n'] <:+ s
  · rw [if_pos h]
  · rw [if_neg h]
    exact pyStrip_append_nl s

/-- The result of `ensureNl` always ends with a newline. -/
theorem ensureNl_endsWith (s : PyStr) : ['\n'] <:+ ensureNl s := by
  unfold ensureNl
  by_cases h : ['\n'] <:+ s
  · rw [if_pos h]
    exact h
  · rw [if_neg h]
    exact List.suffix_append s ['\n']

/-- The middle stage of a re-save of normalised content changes nothing. -/
theorem normContentMid_normContent (c : PyStr) :
    normContentMid (normContent c) = normContentMid c := by
  have hstrip : pyStrip (normContent c) = normContentMid c := by
    rw [show normContent c = ensureNl (normContentMid c) from rfl]
    rw [pyStrip_ensureNl, pyStrip_normContentMid]
  have hlhs : normContentMid (normContent c) =
      if ¬ hasDoubleNl (normContentMid c) ∧ 200 < (normContentMid c).length then
        insertBreaks (normContentMid c)
      else normContentMid c := by
    rw [show normContentMid (normContent c) =
      (if ¬ hasDoubleNl (pyStrip (normContent c)) ∧
          200 < (pyStrip (normContent c)).length then
        insertBreaks (pyStrip (normContent c))
      else pyStrip (normContent c)) from rfl, hstrip]
  rw [hlhs]
  by_cases hdn : hasDoubleNl (normContentMid c) = true
  · rw [if_neg (fun hcontra => hcontra.1 hdn)]
  · by_cases hlen : 200 < (normContentMid c).length
    · rw [if_pos ⟨fun h => hdn h, hlen⟩]
      by_cases hcond : ¬ hasDoubleNl (pyStrip c) ∧ 200 < (pyStrip c).length
      · have hm : normContentMid c = insertBreaks (pyStrip c) := by
          rw [show normContentMid c =
            (if ¬ hasDoubleNl (pyStrip c) ∧ 200 < (pyStrip c).length then
              insertBreaks (pyStrip c)
            else pyStrip c) from rfl, if_pos hcond]
        by_cases hds : hasDotSpace (pyStrip c) = true
        · exact absurd (hm ▸ hasDoubleNl_insertBreaks (pyStrip c) hds) hdn
        · have hid : insertBreaks (pyStrip c) = pyStrip c :=
            insertBreaks_eq_self (pyStrip c) (Bool.not_eq_true _ ▸ hds)
          rw [hm, hid, hid]
      · have hm : normContentMid c = pyStrip c := by
          rw [show normContentMid c =
            (if ¬ hasDoubleNl (pyStrip c) ∧ 200 < (pyStrip c).length then
              insertBreaks (pyStrip c)
            else pyStrip c) from rfl, if_neg hcond]
        rw [hm] at hdn hlen
        exact absurd ⟨fun h => hdn h, hlen⟩ hcond
    · rw [if_neg (fun h => hlen h.2)]

/-- Normalising already-normalised content changes nothing. -/
theorem normContent_idem (c : PyStr) :
    normContent (normContent c) = normContent c := by
  rw [show normContent (normContent c) =
    ensureNl (normContentMid (normContent c)) from rfl, normContentMid_normContent]
  rfl

/-- The normalised filename always carries the text extension. -/
theorem normFilename_endsWith_txt (f : PyStr) : txtExt <:+ normFilename f := by
  unfold normFilename
  by_cases h : txtExt <:+ f
  · rw [if_pos h]
    exact h
  · rw [if_neg h]
    exact List.suffix_append (pathlibStem f) txtExt

/-- Normalising an already-normalised filename changes nothing. -/
theorem normFilename_idem (f : PyStr) :
    normFilename (normFilename f) = normFilename f := by
  rw [show normFilename (normFilename f) =
    (if txtExt <:+ normFilename f then normFilename f
     else pathlibStem (normFilename f) ++ txtExt) from rfl,
    if_pos (normFilename_endsWith_txt f)]

/-- Searching the overwritten listing finds the freshly written entry. -/
theorem find?_write_overwrite (d : DirPath) (n : PyStr) (v : PyStr) :
    ∀ l : List FileEnt, l.any (fun f => decide (f.dir = d ∧ f.name = n)) = true →
    (l.map (fun f => if f.dir = d ∧ f.name = n then
        { f with content := some v } else f)).find?
      (fun f => decide (f.dir = d ∧ f.name = n)) =
      some ⟨d, n, some v⟩ := by
  intro l
  induction l with
  | nil => simp
  | cons f l ih =>
      intro hany
      by_cases hp : f.dir = d ∧ f.name = n
      · obtain ⟨h1, h2⟩ := hp
        simp only [List.map_cons, if_pos (And.intro h1 h2), List.find?]
        rw [show (decide (({ f with content := some v } : FileEnt).dir = d ∧
            ({ f with content := some v } : FileEnt).name = n)) = true from
          decide_eq_true ⟨h1, h2⟩]
        cases f
        simp_all
      · simp only [List.map_cons, if_neg hp, List.find?]
        rw [decide_eq_false hp]
        refine ih ?_
        rcases List.any_eq_true.mp hany with ⟨g, hg, hpg⟩
        rcases List.mem_cons.mp hg with rfl | hgl
        · exact absurd (of_decide_eq_true hpg) hp
        · exact List.any_eq_true.mpr ⟨g, hgl, hpg⟩

/-- Searching the extended listing finds the appended entry when no earlier
entry matches. -/
theorem find?_write_append (d : DirPath) (n : PyStr) (v : PyStr) :
    ∀ l : List FileEnt, (∀ g ∈ l, decide (g.dir = d ∧ g.name = n) = false) →
    (l ++ [(⟨d, n, some v⟩ : FileEnt)]).find?
      (fun f => decide (f.dir = d ∧ f.name = n)) = some ⟨d, n, some v⟩ := by
  intro l
  induction l with
  | nil =>
      intro _
      simp [List.find?]
  | cons f l ih =>
      intro hall
      simp only [List.cons_append, List.find?]
      rw [hall f (List.mem_cons_self f l)]
      exact ih (fun g hg => hall g (List.mem_cons_of_mem f hg))

/-- Reading back a file just written yields the written content. -/
theorem readFile_writeFile (fs : FS) (d : DirPath) (n : PyStr) (v : PyStr) :
    readFile (writeFile fs d n v) d n = some v := by
  unfold writeFile readFile
  by_cases hex : fs.files.any (fun f => decide (f.dir = d ∧ f.name = n)) = true
  · rw [if_pos hex]
    simp only
    rw [find?_write_overwrite d n v fs.files hex]
  · rw [if_neg hex]
    simp only
    rw [find?_write_append d n v fs.files ?_]
    intro g hg
    rcases Bool.eq_false_or_eq_true (decide (g.dir = d ∧ g.name = n)) with h | h
    · exact absurd (List.any_eq_true.mpr ⟨g, hg, h⟩) hex
    · exact h

/-! ## Claims about save_document content handling -/

/-- C6: when the trimmed content exceeds 200 characters and contains no blank
line, the file written by `save_document` is the trimmed content with a
paragraph break inserted after every period-plus-space occurrence (the
spec-side reformulation by splitting and re-joining), followed by the
guaranteed trailing newline; and for every save the written content ends
with a newline. -/
theorem saveDocument_breaks_and_trailing_newline (base : DirPath) (fs : FS)
    (id filename content : PyStr) :
    (200 < (pyStrip content).length → hasDoubleNl (pyStrip content) = false →
      readFile (saveDocument base fs id filename content).1 (inputPath base id)
        (normFilename filename) =
        some (specInsertParagraphBreaks (pyStrip content) ++ ['\n'])) ∧
    readFile (saveDocument base fs id filename content).1 (inputPath base id)
      (normFilename filename) = some (normContent content) ∧
    ['\n'] <:+ normContent content := by
  have hread : readFile (saveDocument base fs id filename content).1
      (inputPath base id) (normFilename filename) = some (normContent content) :=
    readFile_writeFile ((getInputDir base fs id).1) (inputPath base id)
      (normFilename filename) (normContent content)
  refine ⟨?_, hread, ensureNl_endsWith (normContentMid content)⟩
  intro h1 h2
  have hmid : normContentMid content = insertBreaks (pyStrip content) := by
    rw [show normContentMid content =
      (if ¬ hasDoubleNl (pyStrip content) ∧ 200 < (pyStrip content).length then
        insertBreaks (pyStrip content)
      else pyStrip content) from rfl, if_pos ⟨by simp [h2], h1⟩]
  have hlast : (pyStrip content).getLast? ≠ some ' ' := by
    intro hsp
    have := pyStrip_last_not_ws content ' ' hsp
    simp [isWs] at this
  have hnn : ¬ ['\n'] <:+ insertBreaks (pyStrip content) := by
    intro hsuf
    have h3 := (singleton_suffix_iff '\n' (insertBreaks (pyStrip content))).mp hsuf
    rw [getLast?_insertBreaks (pyStrip content) hlast] at h3
    have := pyStrip_last_not_ws content '\n' h3
    simp [isWs] at this
  have hcontent : normContent content =
      specInsertParagraphBreaks (pyStrip content) ++ ['\n'] := by
    rw [show normContent content = ensureNl (normContentMid content) from rfl, hmid,
      show ensureNl (insertBreaks (pyStrip content)) =
        (if ['\n'] <:+ insertBreaks (pyStrip content) then
          insertBreaks (pyStrip content)
        else insertBreaks (pyStrip content) ++ ['\n']) from rfl,
      if_neg hnn, insertBreaks_eq_spec]
  rw [hread, hcontent]

/-- C6 witness: a 242-character period-space document with no blank line is
written with synthetic paragraph breaks and the trailing newline. -/
theorem saveDocument_breaks_and_trailing_newline_witness :
    readFile (saveDocument ["data".data] ⟨[], []⟩ "b".data "doc.txt".data
        (List.replicate 120 'a' ++ '.' :: ' ' :: List.replicate 120 'b')).1
      (inputPath ["data".data] "b".data) (normFilename "doc.txt".data) =
      some (specInsertParagraphBreaks
        (pyStrip (List.replicate 120 'a' ++ '.' :: ' ' :: List.replicate 120 'b'))
        ++ ['\n']) :=
  (saveDocument_breaks_and_trailing_newline ["data".data] ⟨[], []⟩ "b".data
    "doc.txt".data
    (List.replicate 120 'a' ++ '.' :: ' ' :: List.replicate 120 'b')).1
    (by decide) (by decide)

/-- C10: re-saving the exact content that a previous save wrote, under the
filename the previous save produced, writes a byte-identical file at the
same name: normalisation is idempotent on its own output. -/
theorem saveDocument_idempotent (base : DirPath) (fs : FS)
    (id filename content : PyStr) :
    (saveDocument base ((saveDocument base fs id filename content).1) id
        ((saveDocument base fs id filename content).2.2) (normContent content)).2.2 =
      (saveDocument base fs id filename content).2.2 ∧
    readFile (saveDocument base fs id filename content).1 (inputPath base id)
      ((saveDocument base fs id filename content).2.2) = some (normContent content) ∧
    readFile (saveDocument base ((saveDocument base fs id filename content).1) id
        ((saveDocument base fs id filename content).2.2) (normContent content)).1
      (inputPath base id) ((saveDocument base fs id filename content).2.2) =
      some (normContent content) := by
  refine ⟨?_, ?_, ?_⟩
  · show normFilename (normFilename filename) = normFilename filename
    exact normFilename_idem filename
  · show readFile (writeFile ((getInputDir base fs id).1) (inputPath base id)
      (normFilename filename) (normContent content)) (inputPath base id)
      (normFilename filename) = some (normContent content)
    exact readFile_writeFile _ _ _ _
  · show readFile (writeFile
      ((getInputDir base ((saveDocument base fs id filename content).1) id).1)
      (inputPath base id) (normFilename (normFilename filename))
      (normContent (normContent content))) (inputPath base id)
      (normFilename filename) = some (normContent content)
    rw [normFilename_idem, normContent_idem]
    exact readFile_writeFile _ _ _ _

/-! ## Claims about the fallback search -/

/-- Stability of ordered insertion with respect to the score key: inserting
under the descending order places an element after every earlier element of
equal score, so the per-score slices are preserved. -/
theorem filter_orderedInsert_key (k : Nat) (a : Cand) (l : List Cand) :
    (List.orderedInsert scoreGE a l).filter (fun c => decide (c.1 = k)) =
      if a.1 = k then a :: l.filter (fun c => decide (c.1 = k))
      else l.filter (fun c => decide (c.1 = k)) := by
  induction l with
  | nil =>
      by_cases hk : a.1 = k
      · simp [List.orderedInsert, hk]
      · simp [List.orderedInsert, hk]
  | cons b l ih =>
      by_cases hle : scoreGE a b
      · rw [List.orderedInsert_of_le scoreGE l hle]
        by_cases hk : a.1 = k
        · simp [hk]
        · simp [hk]
      · have hstep : List.orderedInsert scoreGE a (b :: l) =
            b :: List.orderedInsert scoreGE a l := by
          simp [List.orderedInsert, hle]
        rw [hstep]
        have hbk : b.1 ≠ k ∨ a.1 ≠ k := by
          by_cases hb : b.1 = k
          · refine Or.inr ?_
            intro ha
            exact hle (by rw [scoreGE, hb, ha])
          · exact Or.inl hb
        by_cases hb : b.1 = k
        · rcases hbk with hb' | ha
          · exact absurd hb hb'
          · rw [List.filter_cons, List.filter_cons,
              show (decide (b.1 = k)) = true from decide_eq_true hb, ih, if_neg ha,
              if_neg ha]
        · rw [List.filter_cons, List.filter_cons,
            show (decide (b.1 = k)) = false from decide_eq_false hb, ih]
          simp

/-- Stability of the insertion sort used to model Python's stable
`list.sort(key=score, reverse=True)`: for every score value, the slice of
that score in the sorted output equals the slice in the input — ties stay in
encounter order. -/
theorem filter_insertionSort_key (k : Nat) (l : List Cand) :
    (List.insertionSort scoreGE l).filter (fun c => decide (c.1 = k)) =
      l.filter (fun c => decide (c.1 = k)) := by
  induction l with
  | nil => rfl
  | cons a l ih =>
      rw [show List.insertionSort scoreGE (a :: l) =
        List.orderedInsert scoreGE a (List.insertionSort scoreGE l) from rfl]
      rw [filter_orderedInsert_key, List.filter_cons]
      by_cases hk : a.1 = k
      · rw [if_pos hk, ih]
        simp [hk]
      · rw [if_neg hk, ih]
        simp [hk]

/-- Characterisation of membership in the fallback candidate list: every
candidate arises from a readable file and a stripped paragraph of at least
50 characters, carries the word-overlap score with the query, and that score
is positive. -/
theorem mem_relevantList (qws : List PyStr) (txts : List FileEnt) (c : Cand)
    (h : c ∈ relevantList qws txts) :
    1 ≤ c.1 ∧ ∃ f ∈ txts, ∃ content, f.content = some content ∧
      ∃ para ∈ splitParas content, ¬ (pyStrip para).length < 50 ∧
        c = (overlapCount (pyWords (pyLower (pyStrip para))) qws,
             (pyStrip para).take 800, f.name) := by
  rw [relevantList, List.mem_flatMap] at h
  obtain ⟨f, hf, hc⟩ := h
  cases hcont : f.content with
  | none =>
      rw [fileCandidates, hcont] at hc
      simp at hc
  | some content =>
      rw [fileCandidates, hcont, List.mem_filterMap] at hc
      obtain ⟨para, hpara, hg⟩ := hc
      dsimp only at hg
      by_cases hlen : (pyStrip para).length < 50
      · rw [if_pos hlen] at hg
        exact absurd hg (by simp)
      · rw [if_neg hlen] at hg
        by_cases hov : 1 ≤ overlapCount (pyWords (pyLower (pyStrip para))) qws
        · rw [if_pos hov] at hg
          have hceq := (Option.some.injEq _ _).mp hg
          refine ⟨?_, f, hf, content, hcont, para, hpara, hlen, hceq.symm⟩
          rw [← hceq]
          exact hov
        · rw [if_neg hov] at hg
          exact absurd hg (by simp)

/-- C5: the fallback search scores each stripped paragraph of at least 50
characters by the size of the word-overlap with the query and keeps only
positive scores in encounter order (`relevantList`); its output is that list
sorted descending by score with ties kept in encounter order (per-score
slices preserved), truncated to `max_results`, rendered and joined; and it
returns `none` exactly when no candidate exists, in particular whenever no
paragraph of any document has positive overlap. -/
theorem simpleSearch_spec (base : DirPath) (fs : FS) (id q : PyStr)
    (maxResults : Nat) :
    ((simpleSearch base fs id q maxResults).2 = none ↔
      relevantList (pyWords (pyLower q)) (globExt fs (inputPath base id) txtExt) = []) ∧
    (∀ c ∈ relevantList (pyWords (pyLower q)) (globExt fs (inputPath base id) txtExt),
      1 ≤ c.1) ∧
    List.Sorted scoreGE (List.insertionSort scoreGE
      (relevantList (pyWords (pyLower q)) (globExt fs (inputPath base id) txtExt))) ∧
    (∀ k, (List.insertionSort scoreGE
        (relevantList (pyWords (pyLower q))
          (globExt fs (inputPath base id) txtExt))).filter
        (fun c => decide (c.1 = k)) =
      (relevantList (pyWords (pyLower q))
        (globExt fs (inputPath base id) txtExt)).filter
        (fun c => decide (c.1 = k))) ∧
    (relevantList (pyWords (pyLower q)) (globExt fs (inputPath base id) txtExt) ≠ [] →
      (simpleSearch base fs id q maxResults).2 =
        some (List.intercalate chunkSep
          (((List.insertionSort scoreGE
              (relevantList (pyWords (pyLower q))
                (globExt fs (inputPath base id) txtExt))).take maxResults).map
            renderChunk))) ∧
    ((∀ f ∈ globExt fs (inputPath base id) txtExt,
        ∀ para ∈ splitParas (f.content.getD []),
        overlapCount (pyWords (pyLower (pyStrip para))) (pyWords (pyLower q)) = 0) →
      (simpleSearch base fs id q maxResults).2 = none) := by
  have hss : simpleSearch base fs id q maxResults =
      ((getInputDir base fs id).1,
        if (globExt fs (inputPath base id) txtExt).isEmpty then none
        else if (relevantList (pyWords (pyLower q))
            (globExt fs (inputPath base id) txtExt)).isEmpty then none
        else some (List.intercalate chunkSep
          (((List.insertionSort scoreGE
              (relevantList (pyWords (pyLower q))
                (globExt fs (inputPath base id) txtExt))).take maxResults).map
            renderChunk))) := by
    simp only [simpleSearch, getInputDir, getConversationDir, globExt_mkdirP]
    by_cases h1 : (globExt fs (inputPath base id) txtExt).isEmpty = true
    · rw [if_pos h1, if_pos h1]
    · rw [if_neg h1, if_neg h1]
      by_cases h2 : (relevantList (pyWords (pyLower q))
          (globExt fs (inputPath base id) txtExt)).isEmpty = true
      · rw [if_pos h2, if_pos h2]
      · rw [if_neg h2, if_neg h2]
  have hnone_iff : (simpleSearch base fs id q maxResults).2 = none ↔
      relevantList (pyWords (pyLower q)) (globExt fs (inputPath base id) txtExt) = [] := by
    rw [hss]
    constructor
    · intro h
      by_cases h1 : (globExt fs (inputPath base id) txtExt).isEmpty = true
      · rw [List.isEmpty_iff] at h1
        rw [relevantList, h1]
        rfl
      · rw [show ((getInputDir base fs id).1,
          if (globExt fs (inputPath base id) txtExt).isEmpty then none
          else if (relevantList (pyWords (pyLower q))
              (globExt fs (inputPath base id) txtExt)).isEmpty then none
          else some (List.intercalate chunkSep
            (((List.insertionSort scoreGE
                (relevantList (pyWords (pyLower q))
                  (globExt fs (inputPath base id) txtExt))).take maxResults).map
              renderChunk))).2 =
          (if (globExt fs (inputPath base id) txtExt).isEmpty then none
          else if (relevantList (pyWords (pyLower q))
              (globExt fs (inputPath base id) txtExt)).isEmpty then none
          else some (List.intercalate chunkSep
            (((List.insertionSort scoreGE
                (relevantList (pyWords (pyLower q))
                  (globExt fs (inputPath base id) txtExt))).take maxResults).map
              renderChunk))) from rfl, if_neg h1] at h
        by_cases h2 : (relevantList (pyWords (pyLower q))
            (globExt fs (inputPath base id) txtExt)).isEmpty = true
        · exact List.isEmpty_iff.mp h2
        · rw [if_neg h2] at h
          exact absurd h (by simp)
    · intro h
      have h2 : (relevantList (pyWords (pyLower q))
          (globExt fs (inputPath base id) txtExt)).isEmpty = true :=
        List.isEmpty_iff.mpr h
      by_cases h1 : (globExt fs (inputPath base id) txtExt).isEmpty = true
      · simp [h1]
      · simp [h1, h2]
  refine ⟨hnone_iff,
    fun c hc => (mem_relevantList (pyWords (pyLower q)) _ c hc).1,
    List.sorted_insertionSort scoreGE _,
    fun k => filter_insertionSort_key k _, ?_, ?_⟩
  · intro hrel
    have h2 : (relevantList (pyWords (pyLower q))
        (globExt fs (inputPath base id) txtExt)).isEmpty = false :=
      List.isEmpty_eq_false.mpr hrel
    have h1 : (globExt fs (inputPath base id) txtExt).isEmpty = false := by
      rw [List.isEmpty_eq_false]
      intro hnil
      refine hrel ?_
      rw [relevantList, hnil]
      rfl
    rw [hss]
    simp [h1, h2]
  · intro hov
    rw [hnone_iff]
    rw [List.eq_nil_iff_forall_not_mem]
    intro c hc
    obtain ⟨hpos, f, hf, content, hcont, para, hpara, hlen, hceq⟩ :=
      mem_relevantList (pyWords (pyLower q)) _ c hc
    have hz := hov f hf para (by rw [hcont]; exact hpara)
    rw [hceq] at hpos
    rw [hz] at hpos
    omega

/-- C5 witness: on a document with no overlapping word the fallback returns
`none`; on a document whose paragraph shares the word `lease` with the query
it returns the rendered sorted candidates. -/
theorem simpleSearch_spec_witness :
    (simpleSearch ["data".data]
        ⟨[], [⟨inputPath ["data".data] "b".data, "a.txt".data,
          some (List.replicate 60 'x')⟩]⟩ "b".data "lease".data 3).2 = none ∧
    (simpleSearch ["data".data]
        ⟨[], [⟨inputPath ["data".data] "b".data, "a.txt".data,
          some ("lease ".data ++ List.replicate 60 'x')⟩]⟩ "b".data "lease".data 3).2 =
      some (List.intercalate chunkSep
        (((List.insertionSort scoreGE
            (relevantList (pyWords (pyLower "lease".data))
              (globExt ⟨[], [⟨inputPath ["data".data] "b".data, "a.txt".data,
                  some ("lease ".data ++ List.replicate 60 'x')⟩]⟩
                (inputPath ["data".data] "b".data) txtExt))).take 3).map
          renderChunk)) := by
  refine ⟨(simpleSearch_spec ["data".data]
      ⟨[], [⟨inputPath ["data".data] "b".data, "a.txt".data,
        some (List.replicate 60 'x')⟩]⟩ "b".data "lease".data 3).2.2.2.2.2
      (by decide), ?_⟩
  exact (simpleSearch_spec ["data".data]
      ⟨[], [⟨inputPath ["data".data] "b".data, "a.txt".data,
        some ("lease ".data ++ List.replicate 60 'x')⟩]⟩ "b".data "lease".data
      3).2.2.2.2.1 (by decide)

end GraphRAG
